import Mathlib

/-!
Shallow embedding of the `ripple` impact-analysis core, translated from the
TypeScript sources:

* `src/analysis/change-detector.ts` — `DependencyGraph` (nodes, edges,
  adjacency index, `addNode`, `addEdge`, `getDependents`,
  `getTransitiveDependents`),
* `src/analysis/dependency-install-impact.ts` — `ImpactAnalyzer`
  (`detectBreakingChanges` and its helpers),
* the real-time pipeline (`calculateRiskScore`, `estimateEffort`),
* `src/utils/lru-cache.ts` — `LRUCache`,
* `src/utils/cache-manager.ts` — `CacheManager`.

JavaScript `Map`s are modelled as association lists in insertion order
(which is exactly the iteration order of a JS `Map`), JS `Set`s as
first-occurrence deduplicated lists, and `Date.now()` as an explicit
`now : Nat` argument threaded through the cache operations.
-/

namespace Ripple

/-- `Parameter` from `src/parsers/base-parser.ts`: `name` is required,
`type`, `optional` and `defaultValue` are optional fields. -/
structure Parameter where
  name : String
  type : Option String := none
  optional : Option Bool := none
  defaultValue : Option String := none
  deriving DecidableEq, Repr

/-- `Symbol` from `src/parsers/base-parser.ts`, restricted to the fields the
analysis core reads.  `file` is the normalized `location.file` component used
by `getSymbolKey`; `kind` is the kind enum rendered as the string that is
interpolated into the key. -/
structure Symbol where
  name : String
  kind : String
  file : String
  signature : Option String := none
  parameters : Option (List Parameter) := none
  returnType : Option String := none
  deriving DecidableEq, Repr

/-- A `{file, line, column}` source location. -/
structure SourceLocation where
  file : String
  line : Nat
  column : Nat
  deriving DecidableEq, Repr

/-- `getSymbolKey` — the identity key `file:name:kind`. -/
def getSymbolKey (s : Symbol) : String :=
  s.file ++ ":" ++ s.name ++ ":" ++ s.kind

/-! ### JS `Map` as an association list in insertion order -/

/-- `Map.has`. -/
def mapHas {K α : Type} [BEq K] (m : List (K × α)) (k : K) : Bool :=
  m.any (fun p => p.1 == k)

/-- `Map.get` (`undefined` becomes `none`). -/
def mapGet {K α : Type} [BEq K] (m : List (K × α)) (k : K) : Option α :=
  (m.find? (fun p => p.1 == k)).map (fun p => p.2)

/-- `Map.delete`: removes the (unique) entry with the given key. -/
def mapDelete {K α : Type} [BEq K] (m : List (K × α)) (k : K) : List (K × α) :=
  match m with
  | [] => []
  | p :: rest => if p.1 == k then rest else p :: mapDelete rest k

/-- `Map.set`: updates in place when the key is present (keeping its
position in iteration order), otherwise appends at the end. -/
def mapSet {K α : Type} [BEq K] (m : List (K × α)) (k : K) (v : α) : List (K × α) :=
  match m with
  | [] => [(k, v)]
  | p :: rest => if p.1 == k then (k, v) :: rest else p :: mapSet rest k v

/-- A JS `Set` built by successive `add`s: first occurrence wins, insertion
order is preserved. -/
def dedupKeys (l : List String) : List String :=
  l.foldl (fun acc k => if acc.contains k then acc else acc ++ [k]) []

/-! ### Dependency graph (`src/analysis/change-detector.ts`) -/

/-- A typed directed edge between two symbols (`GraphEdge`).  `from` and `to` are
Lean keywords, hence the field names `from_` and `to_`. -/
structure GraphEdge where
  from_ : Symbol
  to_ : Symbol
  type : String
  location : SourceLocation
  deriving DecidableEq, Repr

/-- `DependencyGraph`: node map keyed by identity key, edge list, and the
adjacency index from a `from`-key to its outgoing edges. -/
structure DependencyGraph where
  nodes : List (String × Symbol) := []
  edges : List GraphEdge := []
  nodeEdges : List (String × List GraphEdge) := []
  deriving DecidableEq, Repr

/-- `addNode`: inserts the symbol under its key if absent (also allocating
the empty outgoing-edge list); no-op otherwise. -/
def DependencyGraph.addNode (g : DependencyGraph) (symbol : Symbol) : DependencyGraph :=
  let key := getSymbolKey symbol
  if mapHas g.nodes key then g
  else
    { g with
      nodes := g.nodes ++ [(key, symbol)]
      nodeEdges := g.nodeEdges ++ [(key, [])] }

/-- `addEdge`: ensures both endpoints exist, then pushes the edge unless an
edge with the same `(from-key, to-key, type)` triple is already present. -/
def DependencyGraph.addEdge (g : DependencyGraph) (dependency : GraphEdge) : DependencyGraph :=
  let fromKey := getSymbolKey dependency.from_
  let toKey := getSymbolKey dependency.to_
  let g1 := (g.addNode dependency.from_).addNode dependency.to_
  let existingEdge := g1.edges.any (fun e =>
    getSymbolKey e.from_ == fromKey && getSymbolKey e.to_ == toKey && e.type == dependency.type)
  if existingEdge then g1
  else
    { g1 with
      edges := g1.edges ++ [dependency]
      nodeEdges := mapSet g1.nodeEdges fromKey
        (((mapGet g1.nodeEdges fromKey).getD []) ++ [dependency]) }

/-- `getDependents`: the distinct symbols with an edge pointing to the given
symbol (a JS `Set` of from-keys, resolved through the node map). -/
def DependencyGraph.getDependents (g : DependencyGraph) (symbol : Symbol) : List Symbol :=
  let key := getSymbolKey symbol
  let dependentKeys := dedupKeys
    ((g.edges.filter (fun e => getSymbolKey e.to_ == key)).map (fun e => getSymbolKey e.from_))
  dependentKeys.filterMap (fun k => mapGet g.nodes k)

/-- `getDependencies`: the dual of `getDependents`. -/
def DependencyGraph.getDependencies (g : DependencyGraph) (symbol : Symbol) : List Symbol :=
  let key := getSymbolKey symbol
  let dependencyKeys := dedupKeys
    ((g.edges.filter (fun e => getSymbolKey e.from_ == key)).map (fun e => getSymbolKey e.to_))
  dependencyKeys.filterMap (fun k => mapGet g.nodes k)

/-- The mutable closure state of the recursive `traverse` inside
`getTransitiveDependents`: the visited key set (in insertion order) and the
accumulated result list. -/
structure TraverseState where
  visited : List String := []
  result : List Symbol := []
  deriving DecidableEq, Repr

/-- The `dependents.forEach(dep => { result.push(dep); traverse(dep, depth + 1); })`
loop of `getTransitiveDependents`, threading the shared visited/result
state left to right; `f` is the recursive `traverse` at the next depth. -/
def traverseDependentsList (f : Symbol → TraverseState → TraverseState) :
    List Symbol → TraverseState → TraverseState
  | [], st => st
  | dep :: rest, st =>
    traverseDependentsList f rest (f dep { st with result := st.result ++ [dep] })

/-- The recursive `traverse(current, depth)` of `getTransitiveDependents`.
The source recursion is bounded by `depth > maxDepth`; here `gas`
corresponds to `maxDepth + 1 - depth`, so the guard `depth > maxDepth`
becomes `gas = 0`.  A visited `current` is not expanded; otherwise it is
marked visited and each dependent is pushed onto the result and traversed
with one hop less of gas. -/
def traverseDependents (g : DependencyGraph) : Nat → Symbol → TraverseState → TraverseState
  | 0, _, st => st
  | gas + 1, current, st =>
    let key := getSymbolKey current
    if st.visited.contains key then st
    else
      traverseDependentsList (traverseDependents g gas) (g.getDependents current)
        { st with visited := st.visited ++ [key] }

/-- `getTransitiveDependents(symbol, maxDepth)` (default `maxDepth = 5` at
the call sites): run `traverse(symbol, 0)` on fresh state and return the
accumulated result. -/
def DependencyGraph.getTransitiveDependents (g : DependencyGraph) (symbol : Symbol)
    (maxDepth : Nat) : List Symbol :=
  (traverseDependents g (maxDepth + 1) symbol {}).result

/-! ### Impact analyzer (`src/analysis/dependency-install-impact.ts`) -/

/-- JS string falsiness: `undefined` and the empty string are falsy. -/
def strFalsy : Option String → Bool
  | none => true
  | some s => s == ""

/-- The `x || 'unknown'` rendering used in change descriptions. -/
def strOrUnknown : Option String → String
  | none => "unknown"
  | some s => if s == "" then "unknown" else s

/-- The `{severity, description}` record returned by the three detectors. -/
structure VerdictInfo where
  severity : String
  description : String
  deriving DecidableEq, Repr

/-- `detectSignatureChange`: `null` when the rendered signatures agree;
`critical` when either signature is falsy (absent or empty), `warning`
otherwise. -/
def detectSignatureChange (oldSymbol newSymbol : Symbol) : Option VerdictInfo :=
  if oldSymbol.signature == newSymbol.signature then none
  else
    let description := "Signature changed from \"" ++ strOrUnknown oldSymbol.signature ++
      "\" to \"" ++ strOrUnknown newSymbol.signature ++ "\""
    if strFalsy oldSymbol.signature || strFalsy newSymbol.signature then
      some { severity := "critical", description := description }
    else
      some { severity := "warning", description := description }

/-- JS truthiness of the optional `optional` field: only `true` is truthy. -/
def paramOptionalTruthy (p : Parameter) : Bool :=
  p.optional == some true

/-- `detectParameterChange`.  The source's
`JSON.stringify(oldParams) === JSON.stringify(newParams)` guard is modelled
as structural equality of the two parameter lists (the serialization is
injective on these records). -/
def detectParameterChange (oldSymbol newSymbol : Symbol) : Option VerdictInfo :=
  let oldParams := oldSymbol.parameters.getD []
  let newParams := newSymbol.parameters.getD []
  if oldParams.length == newParams.length && oldParams == newParams then none
  else
    let removedParams := oldParams.filter
      (fun old => !(newParams.any (fun newP => newP.name == old.name)))
    if removedParams.length > 0 then
      some { severity := "critical",
             description := "Parameters removed: " ++
               String.intercalate ", " (removedParams.map (fun p => p.name)) }
    else
      let addedRequiredParams := newParams.filter
        (fun newP => !paramOptionalTruthy newP &&
          !(oldParams.any (fun old => old.name == newP.name)))
      if addedRequiredParams.length > 0 then
        some { severity := "critical",
               description := "Required parameters added: " ++
                 String.intercalate ", " (addedRequiredParams.map (fun p => p.name)) }
      else
        let addedOptionalParams := newParams.filter
          (fun newP => paramOptionalTruthy newP &&
            !(oldParams.any (fun old => old.name == newP.name)))
        if addedOptionalParams.length > 0 then
          some { severity := "safe",
                 description := "Optional parameters added: " ++
                   String.intercalate ", " (addedOptionalParams.map (fun p => p.name)) }
        else
          let typeChangedParams := oldParams.filter (fun old =>
            match newParams.find? (fun newP => newP.name == old.name) with
            | some newParam => newParam.type != old.type
            | none => false)
          if typeChangedParams.length > 0 then
            some { severity := "warning",
                   description := "Parameter types changed: " ++
                     String.intercalate ", " (typeChangedParams.map (fun p => p.name)) }
          else
            some { severity := "warning", description := "Parameters modified" }

/-- `detectReturnTypeChange`: `null` when the return types agree; otherwise
a `warning` in every branch of the source. -/
def detectReturnTypeChange (oldSymbol newSymbol : Symbol) : Option VerdictInfo :=
  if oldSymbol.returnType == newSymbol.returnType then none
  else
    let description := "Return type changed from \"" ++ strOrUnknown oldSymbol.returnType ++
      "\" to \"" ++ strOrUnknown newSymbol.returnType ++ "\""
    if newSymbol.returnType == some "void" || newSymbol.returnType == some "undefined" then
      some { severity := "warning", description := description }
    else
      some { severity := "warning", description := description }

/-- The `estimatedImpact` record. -/
structure EstimatedImpact where
  filesAffected : Nat
  callSitesAffected : Nat
  estimatedLOC : Nat
  deriving DecidableEq, Repr

/-- `calculateImpact`: distinct-file count, call-site count, and the fixed
2-lines-per-call-site estimate. -/
def calculateImpact (affectedLocations : List SourceLocation) : EstimatedImpact :=
  { filesAffected := (dedupKeys (affectedLocations.map (fun loc => loc.file))).length
    callSitesAffected := affectedLocations.length
    estimatedLOC := affectedLocations.length * 2 }

/-- `BreakingChange` report object. -/
structure BreakingChange where
  symbol : Symbol
  changeType : String
  severity : String
  description : String
  affectedLocations : List SourceLocation
  estimatedImpact : EstimatedImpact
  deriving DecidableEq, Repr

/-- `detectBreakingChanges(oldSymbol, newSymbol, affectedLocations)`.  The
source's removal guard is `!newSymbol || newSymbol.name === ''`; in the
typed model `newSymbol` is always a value, so the guard reduces to its
`name === ''` disjunct.  The three detectors are consulted in source order
(signature, then parameters, then return type), first non-null verdict
wins. -/
def detectBreakingChanges (oldSymbol : Option Symbol) (newSymbol : Symbol)
    (affectedLocations : List SourceLocation) : Option BreakingChange :=
  match oldSymbol with
  | none => none
  | some oldS =>
    if newSymbol.name == "" then
      some { symbol := oldS, changeType := "removal", severity := "critical"
             description := "Symbol \"" ++ oldS.name ++ "\" has been removed"
             affectedLocations := affectedLocations
             estimatedImpact := calculateImpact affectedLocations }
    else
      match detectSignatureChange oldS newSymbol with
      | some v =>
        some { symbol := newSymbol, changeType := "signature", severity := v.severity
               description := v.description, affectedLocations := affectedLocations
               estimatedImpact := calculateImpact affectedLocations }
      | none =>
      match detectParameterChange oldS newSymbol with
      | some v =>
        some { symbol := newSymbol, changeType := "parameter", severity := v.severity
               description := v.description, affectedLocations := affectedLocations
               estimatedImpact := calculateImpact affectedLocations }
      | none =>
      match detectReturnTypeChange oldS newSymbol with
      | some v =>
        some { symbol := newSymbol, changeType := "type", severity := v.severity
               description := v.description, affectedLocations := affectedLocations
               estimatedImpact := calculateImpact affectedLocations }
      | none => none

/-! ### Real-time impact pipeline risk scoring
(`RealTimeImpactAnalyzer.calculateRiskScore` / `estimateEffort`) -/

/-- One entry of `EditImpact.affectedFiles` as built by the pipeline:
`{file, line, reason, severity}`. -/
structure AffectedFile where
  file : String
  line : Nat
  reason : String
  severity : String
  deriving DecidableEq, Repr

/-- `calculateRiskScore`: base weight by edit type (`delete` 50, `modify`
30, anything else 10), plus `min(5 × affectedFiles.length, 30)`, plus
`10 × breakingChanges.length`, plus `5 × (critical-severity entry count)`,
clamped to 100. -/
def calculateRiskScore (changeType : String) (affectedFiles : List AffectedFile)
    (breakingChanges : List BreakingChange) : Nat :=
  let base := if changeType == "delete" then 50
    else if changeType == "modify" then 30
    else 10
  let criticalCount := (affectedFiles.filter (fun f => f.severity == "critical")).length
  let score := base + min (affectedFiles.length * 5) 30 +
    breakingChanges.length * 10 + criticalCount * 5
  min score 100

/-- `estimateEffort`: tier from the risk score and the affected-file
count. -/
def estimateEffort (riskScore : Nat) (affectedFilesCount : Nat) : String :=
  if riskScore ≥ 85 ∨ affectedFilesCount > 50 then "critical"
  else if riskScore ≥ 60 ∨ affectedFilesCount > 20 then "high"
  else if riskScore ≥ 30 ∨ affectedFilesCount > 10 then "medium"
  else "low"

/-! ### LRU cache (`src/utils/lru-cache.ts`)

The JS `Map` iteration order is insertion order, so the association list is
kept in exactly that order; the head is the oldest (least recently
re-inserted) entry.  `Date.now()` is an explicit `now` argument and `ttlMs`
is `Option Nat`, `none` standing for the `Infinity` default (for which the
expiry test `now - timestamp > Infinity` is always false).  The `onEvict`
callback is a pure side effect and is not part of the state model. -/

/-- `CacheEntry`: stored value plus insertion timestamp. -/
structure CacheEntry (V : Type) where
  value : V
  timestamp : Nat
  deriving DecidableEq, Repr

/-- `LRUCache`: the backing map, capacity, and TTL. -/
structure LRUCache (K V : Type) where
  cache : List (K × CacheEntry V)
  maxSize : Nat
  ttlMs : Option Nat
  deriving DecidableEq, Repr

/-- The expiry test `Date.now() - entry.timestamp > this.ttlMs`. -/
def expiredAt (ttlMs : Option Nat) (timestamp now : Nat) : Bool :=
  match ttlMs with
  | none => false
  | some ttl => now - timestamp > ttl

/-- `delete`: removes the entry with the given key (`onEvict` dropped). -/
def LRUCache.delete {K V : Type} [BEq K] (c : LRUCache K V) (key : K) : LRUCache K V :=
  { c with cache := mapDelete c.cache key }

/-- `get`: miss on absent key; on an expired key, delete it and miss; on a
live key, re-insert the unchanged entry at the end of the map (refreshing
its recency) and return its value. -/
def LRUCache.get {K V : Type} [BEq K] (c : LRUCache K V) (key : K) (now : Nat) :
    Option V × LRUCache K V :=
  match mapGet c.cache key with
  | none => (none, c)
  | some entry =>
    if expiredAt c.ttlMs entry.timestamp now then
      (none, c.delete key)
    else
      (some entry.value, { c with cache := mapDelete c.cache key ++ [(key, entry)] })

/-- `set`: drop an existing entry for the key, evict the first (oldest) map
entry when still at capacity, then append the new entry at the end.  When
the map is empty the source's `keys().next().value` is `undefined` and the
delete is a no-op, which the empty match arm mirrors. -/
def LRUCache.set {K V : Type} [BEq K] (c : LRUCache K V) (key : K) (value : V)
    (now : Nat) : LRUCache K V :=
  let c1 := if mapHas c.cache key then mapDelete c.cache key else c.cache
  let c2 := if c1.length ≥ c.maxSize then
      match c1 with
      | [] => []
      | _ :: rest => rest
    else c1
  { c with cache := c2 ++ [(key, { value := value, timestamp := now })] }

/-- `has`: implemented in the source as `get(key) !== undefined`, so it has
`get`'s recency/expiry side effects. -/
def LRUCache.has {K V : Type} [BEq K] (c : LRUCache K V) (key : K) (now : Nat) :
    Bool × LRUCache K V :=
  let r := c.get key now
  (r.1.isSome, r.2)

/-- `clear` (`onEvict` dropped). -/
def LRUCache.clear {K V : Type} (c : LRUCache K V) : LRUCache K V :=
  { c with cache := [] }

/-- `size`. -/
def LRUCache.size {K V : Type} (c : LRUCache K V) : Nat :=
  c.cache.length

/-- `keys`. -/
def LRUCache.keys {K V : Type} (c : LRUCache K V) : List K :=
  c.cache.map (fun p => p.1)

/-- A fresh cache as built by the constructor. -/
def LRUCache.empty {K V : Type} (maxSize : Nat) (ttlMs : Option Nat) : LRUCache K V :=
  { cache := [], maxSize := maxSize, ttlMs := ttlMs }

/-- One public cache operation, with its observation time. -/
inductive CacheOp (K V : Type) where
  | get (key : K) (now : Nat)
  | set (key : K) (value : V) (now : Nat)
  | has (key : K) (now : Nat)
  | del (key : K)
  | clear
  deriving DecidableEq, Repr

/-- State effect of one operation. -/
def applyOp {K V : Type} [BEq K] (c : LRUCache K V) : CacheOp K V → LRUCache K V
  | .get k now => (c.get k now).2
  | .set k v now => c.set k v now
  | .has k now => (c.has k now).2
  | .del k => c.delete k
  | .clear => c.clear

/-- Run a sequence of operations left to right. -/
def runOps {K V : Type} [BEq K] (c : LRUCache K V) : List (CacheOp K V) → LRUCache K V
  | [] => c
  | op :: rest => runOps (applyOp c op) rest

/-! ### Cache manager (`src/utils/cache-manager.ts`)

`computeFingerprint` stats the file and renders `mtimeMs-size`, returning
the empty string when the stat fails; the stat outcome is modelled as an
explicit `Option (Nat × Nat)` argument (`none` = stat threw). -/

/-- `CacheManager` state: the LRU store, hit/miss counters, and the
per-path fingerprint map.  The cached value type is a parameter (the source
stores `ParseResult`s, whose content the manager never inspects). -/
structure CacheManager (V : Type) where
  memoryCache : LRUCache String V
  hits : Nat
  misses : Nat
  fileFingerprints : List (String × String)
  deriving DecidableEq, Repr

/-- The constructor: `maxMemoryEntries` defaults to 1000 and `ttlMs` to
five minutes. -/
def CacheManager.create {V : Type} (maxMemoryEntries : Nat) (ttlMs : Option Nat) :
    CacheManager V :=
  { memoryCache := LRUCache.empty maxMemoryEntries ttlMs
    hits := 0, misses := 0, fileFingerprints := [] }

/-- `computeFingerprint`: `mtimeMs-size` on success, `''` on a stat
error. -/
def computeFingerprint (statResult : Option (Nat × Nat)) : String :=
  match statResult with
  | some st => toString st.1 ++ "-" ++ toString st.2
  | none => ""

/-- `invalidate`: drop the path from both the LRU store and the fingerprint
map. -/
def CacheManager.invalidate {V : Type} (c : CacheManager V) (filePath : String) :
    CacheManager V :=
  { c with memoryCache := c.memoryCache.delete filePath
           fileFingerprints := mapDelete c.fileFingerprints filePath }

/-- `get`: read the LRU entry (with its recency side effect), recompute the
fingerprint, and hit only when an entry is present and the stored
fingerprint strictly equals the recomputed one; otherwise count a miss and
invalidate the path. -/
def CacheManager.get {V : Type} (c : CacheManager V) (filePath : String)
    (statResult : Option (Nat × Nat)) (now : Nat) : Option V × CacheManager V :=
  let r := c.memoryCache.get filePath now
  let cached := r.1
  let c1 := { c with memoryCache := r.2 }
  let fingerprint := computeFingerprint statResult
  let cachedFingerprint := mapGet c.fileFingerprints filePath
  if cached.isSome && cachedFingerprint == some fingerprint then
    (cached, { c1 with hits := c1.hits + 1 })
  else
    (none, CacheManager.invalidate { c1 with misses := c1.misses + 1 } filePath)

/-- `set`: store the fingerprint computed at write time together with the
value. -/
def CacheManager.set {V : Type} (c : CacheManager V) (filePath : String) (result : V)
    (statResult : Option (Nat × Nat)) (now : Nat) : CacheManager V :=
  { c with fileFingerprints := mapSet c.fileFingerprints filePath
             (computeFingerprint statResult)
           memoryCache := c.memoryCache.set filePath result now }

/-! ### Derived notions used by the statements -/

/-- The symbols within `n` dependent-hops of `s`: `s` itself, plus anything
within `n - 1` hops of a direct dependent of `s`. -/
def withinHops (g : DependencyGraph) (s : Symbol) : Nat → List Symbol
  | 0 => [s]
  | n + 1 => s :: (g.getDependents s).flatMap (fun d => withinHops g d n)

/-- The edges of `edges` whose target key is not yet visited.  Marking a
node visited consumes every edge pointing into it, which bounds the number
of pushes the traversal can still perform. -/
def countFreshIn (edges : List GraphEdge) (visited : List String) : Nat :=
  (edges.filter (fun e => !(visited.contains (getSymbolKey e.to_)))).length

/-- Number of edges of `g` carrying a given `(from-key, to-key, type)`
triple — the triple `addEdge` deduplicates on. -/
def countEdgeTriple (g : DependencyGraph) (fromKey toKey ty : String) : Nat :=
  (g.edges.filter (fun e =>
    getSymbolKey e.from_ == fromKey && getSymbolKey e.to_ == toKey && e.type == ty)).length

/-! ### Concrete fixtures for the counterexamples and scenario claims -/

/-- Symbol `A` in `f.ts`. -/
def symA : Symbol := { name := "A", kind := "function", file := "f.ts" }

/-- Symbol `B` in `f.ts`. -/
def symB : Symbol := { name := "B", kind := "function", file := "f.ts" }

/-- Symbol `C` in `g.ts`. -/
def symC : Symbol := { name := "C", kind := "function", file := "g.ts" }

/-- Symbol `X` in `f.ts`. -/
def symX : Symbol := { name := "X", kind := "function", file := "f.ts" }

/-- A fixed source location. -/
def loc0 : SourceLocation := { file := "f.ts", line := 1, column := 0 }

/-- A `calls` edge from `a` to `b` (i.e. `a` depends on `b`). -/
def edge (a b : Symbol) : GraphEdge :=
  { from_ := a, to_ := b, type := "calls", location := loc0 }

/-- Chain `C → B → A`: `B` calls `A`, `C` calls `B`; `C` is a dependent of
`A` at hop distance exactly 2. -/
def chainGraph : DependencyGraph :=
  (({} : DependencyGraph).addEdge (edge symB symA)).addEdge (edge symC symB)

/-- Diamond: `A` and `B` call `X`, `C` calls both `A` and `B`. -/
def diamondGraph : DependencyGraph :=
  ((({} : DependencyGraph).addEdge (edge symA symX)).addEdge (edge symB symX)
    |>.addEdge (edge symC symA)) |>.addEdge (edge symC symB)

/-- Mutual dependents `A → B → A`. -/
def cycleGraph : DependencyGraph :=
  (({} : DependencyGraph).addEdge (edge symB symA)).addEdge (edge symA symB)

/-- `f(a, b)`: a function recorded with parameters `a` and `b` and no
rendered signature. -/
def oldF : Symbol :=
  { name := "f", kind := "function", file := "f.ts",
    parameters := some [({ name := "a" } : Parameter), ({ name := "b" } : Parameter)] }

/-- `f(a)`: the new version of `oldF` with parameter `b` removed. -/
def newF : Symbol :=
  { name := "f", kind := "function", file := "f.ts",
    parameters := some [({ name := "a" } : Parameter)] }

/-- A symbol value whose `name` is the empty string — the sentinel the
removal guard of `detectBreakingChanges` tests for. -/
def symEmpty : Symbol := { name := "", kind := "function", file := "f.ts" }

/-- LRU scenario at capacity 2: insert `a`, insert `b`, read `a` (refreshing
its recency), then insert the third distinct key `c`. -/
def lruScenario : LRUCache String Nat :=
  ((((LRUCache.empty 2 none).set "a" 1 0).set "b" 2 1).get "a" 2).2.set "c" 3 3

/-- The same inserts without the intermediate read of `a`. -/
def lruScenarioNoGet : LRUCache String Nat :=
  (((LRUCache.empty 2 none).set "a" 1 0).set "b" 2 1).set "c" 3 3

/-- A one-entry cache at capacity 1, used to instantiate the LRU
theorems. -/
def lruOne : LRUCache String Nat :=
  { cache := [("x", { value := 0, timestamp := 0 })], maxSize := 1, ttlMs := none }

/-- A cache manager (default capacity and TTL) on which `set` ran while the
fingerprint stat was failing, so the empty fingerprint got stored. -/
def cmFailedSet : CacheManager Nat :=
  (CacheManager.create 1000 (some 300000)).set "p" 42 none 0

/-- A cache manager holding a successfully computed fingerprint for `p`. -/
def cmGoodSet : CacheManager Nat :=
  (CacheManager.create 1000 (some 300000)).set "p" 42 (some (5, 7)) 0

/-- Three affected-file entries for a deletion edit, two of them with
`critical` severity. -/
def afThree : List AffectedFile :=
  [{ file := "a.ts", line := 1, reason := "r", severity := "critical" },
   { file := "b.ts", line := 2, reason := "r", severity := "critical" },
   { file := "c.ts", line := 3, reason := "r", severity := "safe" }]

/-! ## Theorems -/

/-! ### Helper lemmas about the traversal -/

theorem foldl_dedup_length (l : List String) :
    ∀ acc : List String,
      (l.foldl (fun acc k => if acc.contains k then acc else acc ++ [k]) acc).length ≤
        acc.length + l.length := by
  induction l with
  | nil => intro acc; simp
  | cons k l ih =>
    intro acc
    simp only [List.foldl_cons]
    refine le_trans (ih _) ?_
    by_cases h : k ∈ acc <;> simp [h] <;> omega

theorem dedupKeys_length_le (l : List String) : (dedupKeys l).length ≤ l.length := by
  simpa [dedupKeys] using foldl_dedup_length l []

theorem getDependents_length_le (g : DependencyGraph) (s : Symbol) :
    (g.getDependents s).length ≤
      (g.edges.filter (fun e => getSymbolKey e.to_ == getSymbolKey s)).length := by
  unfold DependencyGraph.getDependents
  refine le_trans (List.length_filterMap_le _ _) ?_
  refine le_trans (dedupKeys_length_le _) ?_
  rw [List.length_map]

theorem length_filter_split {α : Type} (l : List α) (p q : α → Bool) :
    (l.filter p).length =
      (l.filter (fun a => p a && q a)).length +
        (l.filter (fun a => p a && !q a)).length := by
  induction l with
  | nil => simp
  | cons a l ih =>
    by_cases hp : p a <;> by_cases hq : q a <;> simp [hp, hq] <;> omega

theorem countFreshIn_visit (edges : List GraphEdge) (visited : List String) (k : String)
    (h : visited.contains k = false) :
    countFreshIn edges visited =
      countFreshIn edges (visited ++ [k]) +
        (edges.filter (fun e => getSymbolKey e.to_ == k)).length := by
  have hpt : ∀ x : String,
      (!((visited ++ [k]).contains x)) = (!(visited.contains x) && !(x == k)) := by
    intro x
    by_cases hx : x = k <;> simp [List.contains, Bool.not_or, hx]
  have h2 : countFreshIn edges (visited ++ [k]) =
      (edges.filter (fun e =>
        !(visited.contains (getSymbolKey e.to_)) && !(getSymbolKey e.to_ == k))).length := by
    unfold countFreshIn
    congr 1
    exact List.filter_congr (fun e _ => hpt (getSymbolKey e.to_))
  have h3 : (edges.filter (fun e =>
      !(visited.contains (getSymbolKey e.to_)) && (getSymbolKey e.to_ == k))).length =
      (edges.filter (fun e => getSymbolKey e.to_ == k)).length := by
    congr 1
    apply List.filter_congr
    intro e _
    have hnm : k ∉ visited := by simpa using h
    by_cases hx : getSymbolKey e.to_ = k
    · simp [hx, hnm]
    · simp [hx]
  have h4 : (edges.filter (fun e => !(visited.contains (getSymbolKey e.to_)))).length =
      (edges.filter (fun e =>
        !(visited.contains (getSymbolKey e.to_)) && (getSymbolKey e.to_ == k))).length +
      (edges.filter (fun e =>
        !(visited.contains (getSymbolKey e.to_)) && !(getSymbolKey e.to_ == k))).length :=
    length_filter_split edges _ _
  rw [h2]
  unfold countFreshIn
  omega

theorem countFreshIn_le_length (edges : List GraphEdge) (visited : List String) :
    countFreshIn edges visited ≤ edges.length := by
  simpa [countFreshIn] using List.length_filter_le _ edges

/-- Budget invariant: every push of the traversal is paid for by an edge
whose target was freshly marked visited, so result growth is bounded by the
number of fresh edges consumed. -/
theorem traverseBound (g : DependencyGraph) :
    ∀ gas : Nat,
      (∀ (cur : Symbol) (st : TraverseState),
          (traverseDependents g gas cur st).result.length +
            countFreshIn g.edges (traverseDependents g gas cur st).visited ≤
          st.result.length + countFreshIn g.edges st.visited) ∧
      (∀ (l : List Symbol) (st : TraverseState),
          (traverseDependentsList (traverseDependents g gas) l st).result.length +
            countFreshIn g.edges
              (traverseDependentsList (traverseDependents g gas) l st).visited ≤
          st.result.length + l.length + countFreshIn g.edges st.visited) := by
  intro gas
  induction gas with
  | zero =>
    constructor
    · intro cur st
      simp [traverseDependents]
    · intro l st
      induction l generalizing st with
      | nil => simp [traverseDependentsList]
      | cons d rest ihl =>
        simp only [traverseDependentsList, traverseDependents]
        refine le_trans (ihl _) ?_
        simp
        omega
  | succ n ih =>
    have hP : ∀ (cur : Symbol) (st : TraverseState),
        (traverseDependents g (n + 1) cur st).result.length +
          countFreshIn g.edges (traverseDependents g (n + 1) cur st).visited ≤
        st.result.length + countFreshIn g.edges st.visited := by
      intro cur st
      by_cases hv : getSymbolKey cur ∈ st.visited
      · simp [traverseDependents, hv]
      · have hv2 : st.visited.contains (getSymbolKey cur) = false := by
          simpa using hv
        have hQ := ih.2 (g.getDependents cur)
          { st with visited := st.visited ++ [getSymbolKey cur] }
        have hsplit := countFreshIn_visit g.edges st.visited (getSymbolKey cur) hv2
        have hdeps := getDependents_length_le g cur
        simp only [traverseDependents, hv2, Bool.false_eq_true, if_false]
        simp only at hQ
        omega
    refine ⟨hP, ?_⟩
    intro l
    induction l with
    | nil =>
      intro st
      simp [traverseDependentsList]
    | cons d rest ihl =>
      intro st
      simp only [traverseDependentsList]
      have h1 := hP d { st with result := st.result ++ [d] }
      have h2 := ihl (traverseDependents g (n + 1) d { st with result := st.result ++ [d] })
      simp only [List.length_append, List.length_cons, List.length_nil] at h1 h2 ⊢
      omega

theorem withinHops_self (g : DependencyGraph) (s : Symbol) :
    ∀ n : Nat, s ∈ withinHops g s n := by
  intro n
  cases n <;> simp [withinHops]

theorem withinHops_step (g : DependencyGraph) (cur d t : Symbol) (n : Nat)
    (hd : d ∈ g.getDependents cur) (ht : t ∈ withinHops g d n) :
    t ∈ withinHops g cur (n + 1) := by
  simp only [withinHops, List.mem_cons, List.mem_flatMap]
  exact Or.inr ⟨d, hd, ht⟩

/-- Reach invariant: everything the traversal appends to the result while
expanding `cur` with `gas` hops of budget lies within `gas` hops of
`cur`. -/
theorem traverseWithin (g : DependencyGraph) :
    ∀ gas : Nat,
      (∀ (cur : Symbol) (st : TraverseState) (t : Symbol),
          t ∈ (traverseDependents g gas cur st).result →
          t ∈ st.result ∨ t ∈ withinHops g cur gas) ∧
      (∀ (l : List Symbol) (st : TraverseState) (t : Symbol),
          t ∈ (traverseDependentsList (traverseDependents g gas) l st).result →
          t ∈ st.result ∨ ∃ d ∈ l, t = d ∨ t ∈ withinHops g d gas) := by
  intro gas
  induction gas with
  | zero =>
    constructor
    · intro cur st t ht
      exact Or.inl ht
    · intro l
      induction l with
      | nil =>
        intro st t ht
        exact Or.inl ht
      | cons d rest ihl =>
        intro st t ht
        simp only [traverseDependentsList, traverseDependents] at ht
        rcases ihl { st with result := st.result ++ [d] } t ht with h1 | h1
        · simp only [List.mem_append, List.mem_singleton] at h1
          rcases h1 with h1 | h1
          · exact Or.inl h1
          · exact Or.inr ⟨d, List.mem_cons_self d rest, Or.inl h1⟩
        · rcases h1 with ⟨d2, hd2, h2⟩
          exact Or.inr ⟨d2, List.mem_cons_of_mem d hd2, h2⟩
  | succ n ih =>
    have hP : ∀ (cur : Symbol) (st : TraverseState) (t : Symbol),
        t ∈ (traverseDependents g (n + 1) cur st).result →
        t ∈ st.result ∨ t ∈ withinHops g cur (n + 1) := by
      intro cur st t ht
      by_cases hv : getSymbolKey cur ∈ st.visited
      · simp [traverseDependents, hv] at ht
        exact Or.inl ht
      · have hv2 : st.visited.contains (getSymbolKey cur) = false := by simpa using hv
        simp only [traverseDependents, hv2, Bool.false_eq_true, if_false] at ht
        rcases ih.2 (g.getDependents cur)
            { st with visited := st.visited ++ [getSymbolKey cur] } t ht with h1 | h1
        · exact Or.inl h1
        · rcases h1 with ⟨d, hd, h2 | h2⟩
          · exact Or.inr (h2 ▸ withinHops_step g cur d d n hd (withinHops_self g d n))
          · exact Or.inr (withinHops_step g cur d t n hd h2)
    refine ⟨hP, ?_⟩
    intro l
    induction l with
    | nil =>
      intro st t ht
      exact Or.inl ht
    | cons d rest ihl =>
      intro st t ht
      simp only [traverseDependentsList] at ht
      rcases ihl (traverseDependents g (n + 1) d { st with result := st.result ++ [d] }) t ht
          with h1 | h1
      · rcases hP d { st with result := st.result ++ [d] } t h1 with h2 | h2
        · simp only [List.mem_append, List.mem_singleton] at h2
          rcases h2 with h2 | h2
          · exact Or.inl h2
          · exact Or.inr ⟨d, List.mem_cons_self d rest, Or.inl h2⟩
        · exact Or.inr ⟨d, List.mem_cons_self d rest, Or.inr h2⟩
      · rcases h1 with ⟨d2, hd2, h2⟩
        exact Or.inr ⟨d2, List.mem_cons_of_mem d hd2, h2⟩

/-- Visited-set invariant: the traversal never marks the same key twice. -/
theorem traverseVisitedNodup (g : DependencyGraph) :
    ∀ gas : Nat,
      (∀ (cur : Symbol) (st : TraverseState), st.visited.Nodup →
          (traverseDependents g gas cur st).visited.Nodup) ∧
      (∀ (l : List Symbol) (st : TraverseState), st.visited.Nodup →
          (traverseDependentsList (traverseDependents g gas) l st).visited.Nodup) := by
  intro gas
  induction gas with
  | zero =>
    constructor
    · intro cur st h
      simpa [traverseDependents] using h
    · intro l
      induction l with
      | nil => intro st h; simpa [traverseDependentsList] using h
      | cons d rest ihl =>
        intro st h
        simp only [traverseDependentsList, traverseDependents]
        exact ihl { st with result := st.result ++ [d] } h
  | succ n ih =>
    have hP : ∀ (cur : Symbol) (st : TraverseState), st.visited.Nodup →
        (traverseDependents g (n + 1) cur st).visited.Nodup := by
      intro cur st h
      by_cases hv : getSymbolKey cur ∈ st.visited
      · simpa [traverseDependents, hv] using h
      · have hv2 : st.visited.contains (getSymbolKey cur) = false := by simpa using hv
        simp only [traverseDependents, hv2, Bool.false_eq_true, if_false]
        refine ih.2 (g.getDependents cur)
          { st with visited := st.visited ++ [getSymbolKey cur] } ?_
        simp [List.nodup_append, h, hv]
    refine ⟨hP, ?_⟩
    intro l
    induction l with
    | nil => intro st h; simpa [traverseDependentsList] using h
    | cons d rest ihl =>
      intro st h
      simp only [traverseDependentsList]
      exact ihl (traverseDependents g (n + 1) d { st with result := st.result ++ [d] })
        (hP d { st with result := st.result ++ [d] } h)

/-- C5.  `getTransitiveDependents` terminates with a finite result on every
graph, including cyclic ones: the visited set lets each edge contribute at
most one push, so the accumulated list is never longer than the edge list —
independently of `maxDepth`. -/
theorem getTransitiveDependents_terminates_length_le :
    ∀ (g : DependencyGraph) (s : Symbol) (maxDepth : Nat),
      (g.getTransitiveDependents s maxDepth).length ≤ g.edges.length := by
  intro g s maxDepth
  have h := (traverseBound g (maxDepth + 1)).1 s {}
  have h0 : countFreshIn g.edges ([] : List String) = g.edges.length := by
    simp [countFreshIn]
  have h1 := countFreshIn_le_length g.edges
    (traverseDependents g (maxDepth + 1) s {}).visited
  simp [h0] at h
  unfold DependencyGraph.getTransitiveDependents
  omega

/-- C1 (counterexample).  In the chain `C → B → A`, symbol `C` is reachable
only at hop distance 2 from `A` (it is not a one-hop dependent), yet
`getTransitiveDependents(A, 1)` returns it: the claimed bound of `maxDepth`
hops fails at `maxDepth = 1`. -/
theorem getTransitiveDependents_depth_one_cex :
    chainGraph.getTransitiveDependents symA 1 = [symB, symC] ∧
    symC ∈ chainGraph.getTransitiveDependents symA 1 ∧
    symC ∉ chainGraph.getDependents symA := by
  decide

/-- C2 (counterexample).  In the diamond (`A` and `B` call `X`, `C` calls
both `A` and `B`), `getTransitiveDependents(X, 5)` returns `C` twice — the
visited set prevents re-expansion but the push onto the result happens
before the child's visited check, so a symbol discovered from two distinct
parents is re-emitted. -/
theorem getTransitiveDependents_duplicate_cex :
    diamondGraph.getTransitiveDependents symX 5 = [symA, symC, symB, symC] ∧
    ¬ (diamondGraph.getTransitiveDependents symX 5).Nodup := by
  decide

/-- C3.  For `f(a, b)` re-recorded as `f(a)` (parameter `b` removed, same
absent rendered signature), `detectBreakingChanges` returns, for every
affected-location list, a breaking change with `changeType = 'parameter'`,
`severity = 'critical'` and a description containing `"b"`. -/
theorem detectBreakingChanges_removed_parameter :
    ∀ affectedLocations : List SourceLocation,
      (detectBreakingChanges (some oldF) newF affectedLocations).map
        (fun bc => (bc.changeType, bc.severity, bc.description)) =
      some ("parameter", "critical", "Parameters removed: " ++ "b") := by
  intro affectedLocations
  rfl

/-- C1 (amended).  The accumulated result of `getTransitiveDependents(X,
maxDepth)` contains only symbols within `maxDepth + 1` hops of the origin
(one more hop than the claim states, because the depth guard runs before a
node is expanded but its dependents are pushed one level deeper). -/
theorem getTransitiveDependents_mem_withinHops :
    ∀ (g : DependencyGraph) (s : Symbol) (maxDepth : Nat) (t : Symbol),
      t ∈ g.getTransitiveDependents s maxDepth → t ∈ withinHops g s (maxDepth + 1) := by
  intro g s maxDepth t ht
  rcases (traverseWithin g (maxDepth + 1)).1 s {} t ht with h | h
  · exact absurd h (by simp)
  · exact h

/-- Witness for `getTransitiveDependents_mem_withinHops` on the chain
graph: `C` is returned at `maxDepth = 1` and indeed lies within 2 hops. -/
theorem getTransitiveDependents_mem_withinHops_witness :
    symC ∈ chainGraph.getTransitiveDependents symA 1 ∧
    symC ∈ withinHops chainGraph symA 2 :=
  ⟨by decide, getTransitiveDependents_mem_withinHops chainGraph symA 1 symC (by decide)⟩

/-- C2 (amended).  The visited set guarantees each symbol is marked and
expanded at most once (the visited list stays duplicate-free), and on the
cycle `A → B → A` each symbol is returned exactly once; but as the diamond
counterexample shows, the returned list itself may repeat a symbol that is
a direct dependent of several distinct expanded symbols. -/
theorem traverseDependents_visited_nodup_and_cycle :
    (∀ (g : DependencyGraph) (s : Symbol) (maxDepth : Nat),
        ((traverseDependents g (maxDepth + 1) s {}).visited).Nodup) ∧
    cycleGraph.getTransitiveDependents symA 5 = [symB, symA] ∧
    (cycleGraph.getTransitiveDependents symA 5).Nodup := by
  refine ⟨?_, by decide, by decide⟩
  intro g s maxDepth
  exact (traverseVisitedNodup g (maxDepth + 1)).1 s {} (by simp)

/-! ### Helper lemmas about `addNode` / `addEdge` -/

theorem mapHas_append {K α : Type} [BEq K] (m m2 : List (K × α)) (k : K) :
    mapHas (m ++ m2) k = (mapHas m k || mapHas m2 k) := by
  simp [mapHas, List.any_append]

theorem addNode_nodes_has_self (g : DependencyGraph) (s : Symbol) :
    mapHas (g.addNode s).nodes (getSymbolKey s) = true := by
  unfold DependencyGraph.addNode mapHas
  by_cases h : (g.nodes.any fun p => p.1 == getSymbolKey s)
  · simpa [h] using h
  · simp [h, List.any_append]

theorem addNode_has_mono (g : DependencyGraph) (s : Symbol) (k : String)
    (h : mapHas g.nodes k = true) : mapHas (g.addNode s).nodes k = true := by
  unfold mapHas at h
  unfold DependencyGraph.addNode mapHas
  by_cases h2 : (g.nodes.any fun p => p.1 == getSymbolKey s) <;>
    simp [h2, List.any_append, h]

theorem addNode_of_has (g : DependencyGraph) (s : Symbol)
    (h : mapHas g.nodes (getSymbolKey s) = true) : g.addNode s = g := by
  unfold DependencyGraph.addNode
  simp [h]

theorem addNode_edges (g : DependencyGraph) (s : Symbol) :
    (g.addNode s).edges = g.edges := by
  unfold DependencyGraph.addNode
  by_cases h : mapHas g.nodes (getSymbolKey s) <;> simp [h]

theorem addEdge_nodes (g : DependencyGraph) (e : GraphEdge) :
    (g.addEdge e).nodes = ((g.addNode e.from_).addNode e.to_).nodes := by
  simp only [DependencyGraph.addEdge]
  split <;> rfl

theorem addEdge_any_self (g : DependencyGraph) (e : GraphEdge) :
    ((g.addEdge e).edges.any fun x =>
      getSymbolKey x.from_ == getSymbolKey e.from_ &&
        getSymbolKey x.to_ == getSymbolKey e.to_ && x.type == e.type) = true := by
  simp only [DependencyGraph.addEdge]
  split
  · assumption
  · simp [List.any_append]

theorem addEdge_of_has_and_any (g : DependencyGraph) (e : GraphEdge)
    (hf : mapHas g.nodes (getSymbolKey e.from_) = true)
    (ht : mapHas g.nodes (getSymbolKey e.to_) = true)
    (hany : (g.edges.any fun x =>
      getSymbolKey x.from_ == getSymbolKey e.from_ &&
        getSymbolKey x.to_ == getSymbolKey e.to_ && x.type == e.type) = true) :
    g.addEdge e = g := by
  unfold DependencyGraph.addEdge
  rw [addNode_of_has g e.from_ hf, addNode_of_has g e.to_ ht]
  simp [hany]

theorem addEdge_idem (g : DependencyGraph) (e : GraphEdge) :
    (g.addEdge e).addEdge e = g.addEdge e := by
  refine addEdge_of_has_and_any (g.addEdge e) e ?_ ?_ (addEdge_any_self g e)
  · rw [addEdge_nodes]
    exact addNode_has_mono _ _ _ (addNode_nodes_has_self g e.from_)
  · rw [addEdge_nodes]
    exact addNode_nodes_has_self _ e.to_

theorem countEdgeTriple_addEdge (g : DependencyGraph) (e : GraphEdge)
    (h : countEdgeTriple g (getSymbolKey e.from_) (getSymbolKey e.to_) e.type ≤ 1) :
    countEdgeTriple (g.addEdge e) (getSymbolKey e.from_) (getSymbolKey e.to_) e.type = 1 := by
  unfold countEdgeTriple at h ⊢
  simp only [DependencyGraph.addEdge]
  split
  · next hex =>
    simp only [addNode_edges] at hex ⊢
    rcases List.any_eq_true.mp hex with ⟨x, hx, hpx⟩
    have hmem : x ∈ g.edges.filter (fun x =>
        getSymbolKey x.from_ == getSymbolKey e.from_ &&
          getSymbolKey x.to_ == getSymbolKey e.to_ && x.type == e.type) :=
      List.mem_filter.mpr ⟨hx, hpx⟩
    have hpos := List.length_pos_of_mem hmem
    omega
  · next hex =>
    simp only [addNode_edges] at hex ⊢
    have hall : (g.edges.filter (fun x =>
        getSymbolKey x.from_ == getSymbolKey e.from_ &&
          getSymbolKey x.to_ == getSymbolKey e.to_ && x.type == e.type)) = [] := by
      rw [List.filter_eq_nil_iff]
      intro x hx hpx
      exact hex (List.any_eq_true.mpr ⟨x, hx, hpx⟩)
    simp [List.filter_append, hall]

/-- C6.  `addEdge` deduplicates on the `(from-key, to-key, type)` triple:
adding the same edge twice is a no-op the second time (literal state
equality), and when the graph held at most one edge with that triple —
which is an invariant of every graph built through `addEdge` — exactly one
such edge remains after the double insertion. -/
theorem addEdge_idempotent :
    (∀ (g : DependencyGraph) (e : GraphEdge), (g.addEdge e).addEdge e = g.addEdge e) ∧
    (∀ (g : DependencyGraph) (e : GraphEdge),
        countEdgeTriple g (getSymbolKey e.from_) (getSymbolKey e.to_) e.type ≤ 1 →
        countEdgeTriple ((g.addEdge e).addEdge e)
          (getSymbolKey e.from_) (getSymbolKey e.to_) e.type = 1) := by
  refine ⟨addEdge_idem, ?_⟩
  intro g e h
  rw [addEdge_idem g e]
  exact countEdgeTriple_addEdge g e h

/-- Witness for `addEdge_idempotent` on the empty graph and the edge
`B → A`. -/
theorem addEdge_idempotent_witness :
    countEdgeTriple ({} : DependencyGraph) (getSymbolKey (edge symB symA).from_)
      (getSymbolKey (edge symB symA).to_) (edge symB symA).type ≤ 1 ∧
    countEdgeTriple ((({} : DependencyGraph).addEdge (edge symB symA)).addEdge (edge symB symA))
      (getSymbolKey (edge symB symA).from_)
      (getSymbolKey (edge symB symA).to_) (edge symB symA).type = 1 :=
  ⟨by decide, addEdge_idempotent.2 {} (edge symB symA) (by decide)⟩

/-! ### Helper lemmas about the LRU cache -/

theorem mapDelete_length_le {K α : Type} [BEq K] (m : List (K × α)) (k : K) :
    (mapDelete m k).length ≤ m.length := by
  induction m with
  | nil => simp [mapDelete]
  | cons p rest ih =>
    simp only [mapDelete]
    by_cases h : (p.1 == k) <;> simp [h] <;> omega

theorem mapGet_some_delete_length {K α : Type} [BEq K] (m : List (K × α)) (k : K) (v : α)
    (h : mapGet m k = some v) : (mapDelete m k).length + 1 = m.length := by
  induction m with
  | nil => simp [mapGet] at h
  | cons p rest ih =>
    by_cases hb : (p.1 == k)
    · simp [mapDelete, hb]
    · have hb2 : (p.1 == k) = false := by simpa using hb
      have h2 : mapGet rest k = some v := by
        simpa [mapGet, List.find?_cons, hb2] using h
      have := ih h2
      simp [mapDelete, hb2]
      omega

theorem lru_get_snd_length {K V : Type} [BEq K] (c : LRUCache K V) (k : K) (now : Nat) :
    ((c.get k now).2).cache.length ≤ c.cache.length := by
  unfold LRUCache.get
  cases h : mapGet c.cache k with
  | none => simp
  | some entry =>
    by_cases he : expiredAt c.ttlMs entry.timestamp now
    · simpa [he, LRUCache.delete] using mapDelete_length_le c.cache k
    · have := mapGet_some_delete_length c.cache k entry h
      simp [he]
      omega

theorem lru_get_snd_maxSize {K V : Type} [BEq K] (c : LRUCache K V) (k : K) (now : Nat) :
    ((c.get k now).2).maxSize = c.maxSize := by
  unfold LRUCache.get
  cases h : mapGet c.cache k with
  | none => simp
  | some entry =>
    by_cases he : expiredAt c.ttlMs entry.timestamp now <;> simp [he, LRUCache.delete]

theorem lru_set_length {K V : Type} [BEq K] (c : LRUCache K V) (k : K) (v : V) (now : Nat)
    (hle : c.cache.length ≤ c.maxSize) (h1 : 1 ≤ c.maxSize) :
    (c.set k v now).cache.length ≤ c.maxSize := by
  unfold LRUCache.set
  have hdel : (mapDelete c.cache k).length ≤ c.cache.length := mapDelete_length_le c.cache k
  by_cases hh : (mapHas c.cache k) <;> simp only [hh, if_true, if_false, Bool.false_eq_true]
  · by_cases h2 : c.maxSize ≤ (mapDelete c.cache k).length
    · rw [if_pos h2]
      cases hc : mapDelete c.cache k with
      | nil => simp at h2 ⊢; omega
      | cons a rest =>
        rw [hc] at h2 hdel
        simp at h2 hdel ⊢
        omega
    · rw [if_neg (by omega)]
      simp
      omega
  · by_cases h2 : c.maxSize ≤ c.cache.length
    · rw [if_pos h2]
      cases hc : c.cache with
      | nil => simp at h2 ⊢; omega
      | cons a rest =>
        rw [hc] at h2 hle
        simp at h2 hle ⊢
        omega
    · rw [if_neg (by omega)]
      simp
      omega

theorem lru_set_maxSize {K V : Type} [BEq K] (c : LRUCache K V) (k : K) (v : V) (now : Nat) :
    (c.set k v now).maxSize = c.maxSize := by
  unfold LRUCache.set
  rfl

theorem applyOp_maxSize {K V : Type} [BEq K] (c : LRUCache K V) (op : CacheOp K V) :
    (applyOp c op).maxSize = c.maxSize := by
  cases op with
  | get k now => exact lru_get_snd_maxSize c k now
  | set k v now => exact lru_set_maxSize c k v now
  | has k now => exact lru_get_snd_maxSize c k now
  | del k => rfl
  | clear => rfl

theorem applyOp_length {K V : Type} [BEq K] (c : LRUCache K V) (op : CacheOp K V)
    (hle : c.cache.length ≤ c.maxSize) (h1 : 1 ≤ c.maxSize) :
    (applyOp c op).cache.length ≤ c.maxSize := by
  cases op with
  | get k now => exact le_trans (lru_get_snd_length c k now) hle
  | set k v now => exact lru_set_length c k v now hle h1
  | has k now => exact le_trans (lru_get_snd_length c k now) hle
  | del k => exact le_trans (mapDelete_length_le c.cache k) hle
  | clear => simp [applyOp, LRUCache.clear]

theorem runOps_size {K V : Type} [BEq K] :
    ∀ (ops : List (CacheOp K V)) (c : LRUCache K V),
      c.cache.length ≤ c.maxSize → 1 ≤ c.maxSize →
      (runOps c ops).cache.length ≤ (runOps c ops).maxSize ∧
        (runOps c ops).maxSize = c.maxSize := by
  intro ops
  induction ops with
  | nil => intro c h1 h2; exact ⟨h1, rfl⟩
  | cons op rest ih =>
    intro c h1 h2
    simp only [runOps]
    have hm := applyOp_maxSize c op
    have hs : (applyOp c op).cache.length ≤ (applyOp c op).maxSize := by
      rw [hm]
      exact applyOp_length c op h1 h2
    have hrec := ih (applyOp c op) hs (by omega)
    exact ⟨hrec.1, hrec.2.trans hm⟩

/-- C10.  An LRU cache built with capacity `maxSize ≥ 1` never holds more
than `maxSize` entries, whatever sequence of `get` / `set` / `has` /
`delete` / `clear` operations is applied: `set` always removes an entry
(the key's own stale entry, or the oldest one) before appending when the
map is full. -/
theorem lru_size_le_maxSize :
    ∀ (K V : Type) [BEq K] (maxSize : Nat) (ttlMs : Option Nat)
      (ops : List (CacheOp K V)),
      1 ≤ maxSize →
      (runOps (LRUCache.empty maxSize ttlMs) ops).size ≤ maxSize := by
  intro K V inst maxSize ttlMs ops h
  have hrun := runOps_size ops (LRUCache.empty maxSize ttlMs)
    (by simp [LRUCache.empty]) (by simpa [LRUCache.empty] using h)
  have hmax : (runOps (LRUCache.empty maxSize ttlMs : LRUCache K V) ops).maxSize = maxSize := by
    simpa [LRUCache.empty] using hrun.2
  unfold LRUCache.size
  omega

/-- Witness for `lru_size_le_maxSize`: three operations (two inserts and a
read) on a capacity-1 cache leave at most one entry. -/
theorem lru_size_le_maxSize_witness :
    (1 : Nat) ≤ 1 ∧
    (runOps (LRUCache.empty 1 none)
      [CacheOp.set "a" 1 0, CacheOp.set "b" 2 1, CacheOp.get "a" 2]).size ≤ 1 :=
  ⟨by decide, lru_size_le_maxSize String Nat 1 none
    [CacheOp.set "a" 1 0, CacheOp.set "b" 2 1, CacheOp.get "a" 2] (by decide)⟩

/-- C9 (counterexample).  A symbol whose `name` is the empty string trips
the removal guard `newSymbol.name === ''` even when the old and new symbol
are identical, so `detectBreakingChanges(s, s, [])` is not `null` for that
`s`. -/
theorem detectBreakingChanges_self_cex :
    detectBreakingChanges (some symEmpty) symEmpty [] ≠ none ∧
    (detectBreakingChanges (some symEmpty) symEmpty []).map (fun bc => bc.changeType) =
      some "removal" := by
  decide

/-- C9 (amended).  For every symbol with a non-empty name, re-observing it
unchanged is never classified as a breaking change: identical signature,
parameter list and return type make all three detectors return `null`. -/
theorem detectBreakingChanges_self_eq_none :
    ∀ (s : Symbol) (affectedLocations : List SourceLocation), s.name ≠ "" →
      detectBreakingChanges (some s) s affectedLocations = none := by
  intro s affectedLocations h
  have hb : (s.name == "") = false := by
    simpa using h
  simp [detectBreakingChanges, hb, detectSignatureChange, detectParameterChange,
    detectReturnTypeChange]

/-- Witness for `detectBreakingChanges_self_eq_none` at the concrete symbol
`A`. -/
theorem detectBreakingChanges_self_eq_none_witness :
    symA.name ≠ "" ∧ detectBreakingChanges (some symA) symA [loc0] = none :=
  ⟨by decide, detectBreakingChanges_self_eq_none symA [loc0] (by decide)⟩

/-- C4.  Pipeline risk score and effort tier: (1) a deletion edit with 3
affected-file entries and no breaking changes scores
`min(50 + min(5·3, 30) + 0 + 5·criticalCount, 100)`; (2) the `'low'` tier
implies a score below 30; (3) hence a delete edit never gets `'low'`
effort. -/
theorem calculateRiskScore_delete_spec :
    (∀ affectedFiles : List AffectedFile, affectedFiles.length = 3 →
        calculateRiskScore "delete" affectedFiles [] =
          min (50 + min (3 * 5) 30 + 0 * 10 +
            ((affectedFiles.filter (fun f => f.severity == "critical")).length) * 5) 100) ∧
    (∀ riskScore affectedFilesCount : Nat,
        estimateEffort riskScore affectedFilesCount = "low" → riskScore < 30) ∧
    (∀ (affectedFiles : List AffectedFile) (breakingChanges : List BreakingChange),
        estimateEffort (calculateRiskScore "delete" affectedFiles breakingChanges)
          affectedFiles.length ≠ "low") := by
  have hlow : ∀ riskScore affectedFilesCount : Nat,
      estimateEffort riskScore affectedFilesCount = "low" → riskScore < 30 := by
    intro r c h
    unfold estimateEffort at h
    split_ifs at h with h1 h2 h3
    · exact absurd h (by decide)
    · exact absurd h (by decide)
    · exact absurd h (by decide)
    · push_neg at h3
      omega
  refine ⟨?_, hlow, ?_⟩
  · intro affectedFiles h
    simp [calculateRiskScore, h]
  · intro affectedFiles breakingChanges hcontra
    have h50 : 50 ≤ calculateRiskScore "delete" affectedFiles breakingChanges := by
      simp [calculateRiskScore]
      omega
    have := hlow _ _ hcontra
    omega

/-- Witness for `calculateRiskScore_delete_spec` on the concrete
three-entry affected-file list. -/
theorem calculateRiskScore_delete_spec_witness :
    afThree.length = 3 ∧
    calculateRiskScore "delete" afThree [] =
      min (50 + min (3 * 5) 30 + 0 * 10 +
        ((afThree.filter (fun f => f.severity == "critical")).length) * 5) 100 :=
  ⟨by decide, calculateRiskScore_delete_spec.1 afThree (by decide)⟩

/-- C8 (counterexample).  If `set(p, v)` runs while the fingerprint stat is
failing, the empty fingerprint is stored; a later `get(p)` whose stat also
fails compares `'' === ''`, matches, and returns a hit — so a failing
fingerprint can match a previously stored one. -/
theorem cacheManager_empty_fingerprint_hit_cex :
    (cmFailedSet.get "p" none 0).1 = some 42 := by
  decide

/-- C8 (amended).  A failing fingerprint computation yields `''`, which
never matches a stored fingerprint that is non-empty (in particular any
fingerprint computed from a successful stat, which always has the
`mtimeMs-size` shape), and never matches when no fingerprint is stored; in
those cases `get` returns a miss instead of throwing. -/
theorem cacheManager_fingerprint_failure_miss :
    (∀ (V : Type) (c : CacheManager V) (filePath : String) (now : Nat) (fp : String),
        mapGet c.fileFingerprints filePath = some fp → fp ≠ "" →
        (c.get filePath none now).1 = none) ∧
    (∀ (V : Type) (c : CacheManager V) (filePath : String) (now : Nat),
        mapGet c.fileFingerprints filePath = none →
        (c.get filePath none now).1 = none) ∧
    (∀ mtimeMs byteSize : Nat, computeFingerprint (some (mtimeMs, byteSize)) ≠ "") := by
  refine ⟨?_, ?_, ?_⟩
  · intro V c filePath now fp hfp hne
    simp [CacheManager.get, computeFingerprint, hfp, hne]
  · intro V c filePath now hfp
    simp [CacheManager.get, computeFingerprint, hfp]
  · intro mtimeMs byteSize h
    have := congrArg String.length h
    simp [computeFingerprint, String.length_append] at this
    exact absurd this.1.2 (by decide)

/-- Witness for `cacheManager_fingerprint_failure_miss`: a manager holding
the fingerprint `5-7` for `p` misses when the stat fails. -/
theorem cacheManager_fingerprint_failure_miss_witness :
    mapGet cmGoodSet.fileFingerprints "p" = some "5-7" ∧
    (cmGoodSet.get "p" none 1).1 = none :=
  ⟨by decide, cacheManager_fingerprint_failure_miss.1 Nat cmGoodSet "p" 1 "5-7"
    (by decide) (by decide)⟩

/-- C7.  LRU eviction follows recency, not insertion: (1) inserting a fresh
key into a full cache evicts the entry at the head of the map — the least
recently touched one, since both `set` and a live `get` move a key to the
tail; (2) `get` on a present, non-expired key re-appends its unchanged
entry at the tail; (3) in the capacity-2 scenario insert `a`, insert `b`,
read `a`, insert `c`, the evicted key is `b`, not the least-recently-
inserted `a`; without the read, `a` would have been evicted. -/
theorem lru_evict_least_recently_touched :
    (∀ (K V : Type) [BEq K], ∀ (c : LRUCache K V) (key : K) (value : V) (now : Nat),
        c.cache.length = c.maxSize → 1 ≤ c.maxSize → mapHas c.cache key = false →
        (c.set key value now).cache =
          c.cache.tail ++ [(key, { value := value, timestamp := now })]) ∧
    (∀ (K V : Type) [BEq K], ∀ (c : LRUCache K V) (key : K) (now : Nat) (entry : CacheEntry V),
        mapGet c.cache key = some entry →
        expiredAt c.ttlMs entry.timestamp now = false →
        c.get key now =
          (some entry.value, { c with cache := mapDelete c.cache key ++ [(key, entry)] })) ∧
    lruScenario.keys = ["a", "c"] ∧
    lruScenarioNoGet.keys = ["b", "c"] := by
  refine ⟨?_, ?_, by decide, by decide⟩
  · intro K V inst c key value now h1 h2 h3
    unfold LRUCache.set
    simp only [h3, Bool.false_eq_true, if_false, ge_iff_le, h1.symm.le, if_pos]
    cases c.cache <;> simp
  · intro K V inst c key now entry hget hexp
    unfold LRUCache.get
    rw [hget]
    simp [hexp]

/-- Witness for `lru_evict_least_recently_touched` on a one-entry cache at
capacity 1. -/
theorem lru_evict_least_recently_touched_witness :
    lruOne.cache.length = lruOne.maxSize ∧ mapHas lruOne.cache "y" = false ∧
    (lruOne.set "y" 5 7).cache =
      lruOne.cache.tail ++ [("y", { value := 5, timestamp := 7 })] ∧
    mapGet lruOne.cache "x" = some { value := 0, timestamp := 0 } ∧
    lruOne.get "x" 9 =
      (some 0, { lruOne with cache := mapDelete lruOne.cache "x" ++
        [("x", { value := 0, timestamp := 0 })] }) :=
  ⟨by decide, by decide,
    lru_evict_least_recently_touched.1 String Nat lruOne "y" 5 7 (by decide) (by decide)
      (by decide),
    by decide,
    lru_evict_least_recently_touched.2.1 String Nat lruOne "x" 9
      { value := 0, timestamp := 0 } (by decide) (by decide)⟩

end Ripple
